import Mathlib

/-!
Shallow embedding of the Review Session state machine of the swipe-images
repository.

Sources embedded:
- `src/contexts/image-swipe-context.tsx` : the Disposition Ledger
  (`markForDeletion`, `markForKeep`, `unmarkForDeletion`, `unmarkForKeep`,
  `clearAll`), its persistence mirror (AsyncStorage sets), and the
  mark-restoring part of `loadImages` / `refreshImages`.
- `src/app/index.tsx` : the screen handlers `handleSwipeLeft`,
  `handleSwipeRight`, `handleUndo`, `handleCommitDeletion`, and the
  restore-position effect (lines 97-144).

Modelling conventions:
- JS `Set<string>` becomes `Finset String` (membership semantics).
- The async handlers are modelled as atomic state transitions: an operation is
  the completed call, including the bookkeeping its timeouts perform (the
  `isUndoingRef` guard is therefore back to `false` between operations, and
  `imagesLoading` is `false` whenever an operation starts).
- The external photo store (`MediaLibrary`) is an oracle parameter: the batch
  delete either throws (`StoreOutcome.err`) or resolves having actually removed
  a set of ids (`StoreOutcome.ok removed`); a later listing returns the
  surviving items in their original (creation-time) order.
- React state updates are given plain sequential semantics: each setState is an
  immediate field update, and a `useEffect` body runs after the event handler
  that triggered it has finished, reading the state left by that handler.
-/

/-- `ImageAsset` from `image-swipe-context.tsx` lines 12-16. -/
structure ImageAsset where
  id : String
  uri : String
  creationTime : Int
deriving DecidableEq, Repr

/-- An undo-history entry, `index.tsx` lines 22-24:
`{ index: number; wasLeftSwipe: boolean }`. -/
structure HistoryEntry where
  index : Nat
  wasLeftSwipe : Bool
deriving DecidableEq, Repr

/-- The combined state of the `ImageSwipeProvider` context, the persisted
AsyncStorage sets, and the `HomeScreen` component. -/
structure SessionState where
  /-- `images` state of the provider (the Sequence). -/
  images : List ImageAsset
  /-- `currentIndex` state of `HomeScreen` (the Cursor). -/
  currentIndex : Nat
  /-- `history` state of `HomeScreen`. -/
  history : List HistoryEntry
  /-- `markedForDeletion` state of the provider. -/
  markedForDeletion : Finset String
  /-- `markedForKeep` state of the provider. -/
  markedForKeep : Finset String
  /-- AsyncStorage contents under `DELETION_IMAGES_STORAGE_KEY`. -/
  persistedDeletion : Finset String
  /-- AsyncStorage contents under `KEPT_IMAGES_STORAGE_KEY`. -/
  persistedKeep : Finset String
  /-- `permissionGranted` state of the provider. -/
  permissionGranted : Bool
  /-- `isDeleting` state of `HomeScreen`. -/
  isDeleting : Bool
  /-- `targetImageIdAfterDeletionRef.current`. -/
  targetImageIdAfterDeletion : Option String
  /-- `imagesHash.current` (the source stores `JSON.stringify(images)`;
  we store the list itself, equality of the strings being equality of the
  lists). -/
  imagesHash : List ImageAsset
deriving DecidableEq

/-- `markForDeletion` (`image-swipe-context.tsx` lines 232-247): add to the
deletion set and persist it; remove from the keep set and persist that too. -/
def markForDeletion (imageId : String) (s : SessionState) : SessionState :=
  let newDel := insert imageId s.markedForDeletion
  let newKeep := s.markedForKeep.erase imageId
  { s with
    markedForDeletion := newDel
    persistedDeletion := newDel
    markedForKeep := newKeep
    persistedKeep := newKeep }

/-- `markForKeep` (`image-swipe-context.tsx` lines 249-262): add to the keep
set and persist it; remove from the deletion set, but — unlike
`markForDeletion` — the source does NOT write the shrunk deletion set back to
persistent storage (no `savePersistedDeletionImages` call in lines 256-261). -/
def markForKeep (imageId : String) (s : SessionState) : SessionState :=
  let newKeep := insert imageId s.markedForKeep
  { s with
    markedForKeep := newKeep
    persistedKeep := newKeep
    markedForDeletion := s.markedForDeletion.erase imageId }

/-- `unmarkForDeletion` (`image-swipe-context.tsx` lines 264-272). -/
def unmarkForDeletion (imageId : String) (s : SessionState) : SessionState :=
  let newDel := s.markedForDeletion.erase imageId
  { s with
    markedForDeletion := newDel
    persistedDeletion := newDel }

/-- `unmarkForKeep` (`image-swipe-context.tsx` lines 274-282). -/
def unmarkForKeep (imageId : String) (s : SessionState) : SessionState :=
  let newKeep := s.markedForKeep.erase imageId
  { s with
    markedForKeep := newKeep
    persistedKeep := newKeep }

/-- `clearAll` (`image-swipe-context.tsx` lines 284-287): empties the two
in-memory sets only. -/
def clearAll (s : SessionState) : SessionState :=
  { s with markedForDeletion := ∅, markedForKeep := ∅ }

/-- The mark-restoring and list-replacing part of `loadImages`
(`image-swipe-context.tsx` lines 146-203): the in-memory sets are overwritten
with the persisted ones (lines 150-154) and `images` is replaced with the
store's current listing (lines 156-196). The listing is supplied as a
parameter because it comes from the external `MediaLibrary`. -/
def loadImages (libraryListing : List ImageAsset) (s : SessionState) : SessionState :=
  { s with
    markedForKeep := s.persistedKeep
    markedForDeletion := s.persistedDeletion
    images := libraryListing }

/-- `refreshImages` (`image-swipe-context.tsx` lines 226-230): only loads when
permission is granted. -/
def refreshImages (libraryListing : List ImageAsset) (s : SessionState) : SessionState :=
  if s.permissionGranted then loadImages libraryListing s else s

/-- `handleSwipeLeft` (`index.tsx` lines 163-185): guard on cursor bounds,
push a history entry, mark the current image for deletion, then advance the
cursor — but the functional update at lines 177-184 returns `prev` (the old
index) when `prev + 1` would reach `images.length`, showing the "Done!" alert
instead of advancing. -/
def handleSwipeLeft (s : SessionState) : SessionState :=
  if h : s.currentIndex < s.images.length then
    let imageToMark := s.images.get ⟨s.currentIndex, h⟩
    let s1 := { s with history := s.history ++ [⟨s.currentIndex, true⟩] }
    let s2 := markForDeletion imageToMark.id s1
    { s2 with
      currentIndex :=
        if s.currentIndex + 1 ≥ s.images.length then s.currentIndex
        else s.currentIndex + 1 }
  else s

/-- `handleSwipeRight` (`index.tsx` lines 187-209): same shape as
`handleSwipeLeft` with `markForKeep` and `wasLeftSwipe: false`. -/
def handleSwipeRight (s : SessionState) : SessionState :=
  if h : s.currentIndex < s.images.length then
    let imageToMark := s.images.get ⟨s.currentIndex, h⟩
    let s1 := { s with history := s.history ++ [⟨s.currentIndex, false⟩] }
    let s2 := markForKeep imageToMark.id s1
    { s2 with
      currentIndex :=
        if s.currentIndex + 1 ≥ s.images.length then s.currentIndex
        else s.currentIndex + 1 }
  else s

/-- Outcome reported by `handleUndo` (the alerts of `index.tsx`
lines 211-231). -/
inductive UndoOutcome
  | nothingToUndo
  | staleEntryDropped
  | undone
deriving DecidableEq, Repr

/-- `handleUndo` (`index.tsx` lines 211-279): on empty history, alert
"Nothing to undo" and change nothing; otherwise read the last entry, and if
its index is out of the current bounds just pop it; otherwise unmark the image
at that index according to the recorded direction, pop the entry, and move the
cursor back to the recorded index. The animation bookkeeping (timeouts,
`isUndoingRef`) completes within the modelled step. -/
def handleUndo (s : SessionState) : SessionState × UndoOutcome :=
  match s.history.getLast? with
  | none => (s, .nothingToUndo)
  | some lastAction =>
    if h : lastAction.index < s.images.length then
      let imageToUnmark := s.images.get ⟨lastAction.index, h⟩
      let s1 :=
        if lastAction.wasLeftSwipe then unmarkForDeletion imageToUnmark.id s
        else unmarkForKeep imageToUnmark.id s
      ({ s1 with
          history := s.history.dropLast
          currentIndex := lastAction.index }, .undone)
    else
      ({ s with history := s.history.dropLast }, .staleEntryDropped)

/-- Behaviour of the external store's batch delete
(`MediaLibrary.deleteAssetsAsync`): it either throws/rejects, or it resolves
having actually removed `removed` from the library (the source never inspects
the resolved value, so a partial removal also resolves). -/
inductive StoreOutcome
  | ok (removed : Finset String)
  | err
deriving DecidableEq

/-- The alert shown when `handleCommitDeletion` finishes
(`index.tsx` lines 284, 374, 379, 384). -/
inductive CommitOutcome
  | noImages
  | allDeleted
  | success
  | errorAlert
deriving DecidableEq, Repr

/-- The members of the value object supplied by `ImageSwipeProvider`
(`image-swipe-context.tsx` lines 289-307). Note that `clearDeletion` — which
`index.tsx` line 44 destructures and line 345 calls — is not among them, while
`clearAll` is. -/
def providerValueMembers : List String :=
  ["markedForDeletion", "markedForKeep", "images", "imagesLoading",
   "permissionGranted", "markForDeletion", "markForKeep",
   "unmarkForDeletion", "unmarkForKeep", "clearAll", "refreshImages",
   "removeFromPersistedKeep", "removeFromPersistedDeletion",
   "saveLastViewedImage", "loadLastViewedImage"]

/-- The target-id computation of `handleCommitDeletion`
(`index.tsx` lines 291-332): if the item at the cursor exists and is not
marked, stay on it; otherwise the first unmarked item scanning forward from
`currentIndex + 1`, otherwise the first unmarked item scanning backward from
`currentIndex - 1`, otherwise none. -/
def computeTargetId (images : List ImageAsset) (currentIndex : Nat)
    (markedSet : Finset String) : Option String :=
  let currentImageId := (images.get? currentIndex).map (fun img => img.id)
  let forwardThenBackward : Option String :=
    match (images.drop (currentIndex + 1)).find?
        (fun img => decide (img.id ∉ markedSet)) with
    | some img => some img.id
    | none =>
      ((images.take currentIndex).reverse.find?
        (fun img => decide (img.id ∉ markedSet))).map (fun img => img.id)
  match currentImageId with
  | some cid => if cid ∉ markedSet then some cid else forwardThenBackward
  | none => forwardThenBackward

/-- `handleCommitDeletion` (`index.tsx` lines 281-388), as the completed
execution of the async handler against a store behaving as `store`.

Steps in source order: record `imagesHash`; bail out with the "No Images"
alert when nothing is marked; snapshot the marked set, images and history;
set `isDeleting` and compute the target id; await the store delete (a throw
goes to the catch branch, which resets `isDeleting` and the target ref and
alerts "Error"); on resolve, remove ALL requested ids from both persisted
sets (lines 338-339 — the store's actual result is never consulted); refresh
the image list from the store; then call `clearDeletion()`. Because the
provider supplies no `clearDeletion` member, that call raises at runtime and
control moves to the catch branch; the rest of the success path (history
pruning, success alerts) is modelled under the member check and per the
spec's `clearDeleteMarks` for the hypothetical case that the member existed. -/
def handleCommitDeletion (store : StoreOutcome) (s : SessionState) :
    SessionState × CommitOutcome :=
  let s0 := { s with imagesHash := s.images }
  if s.markedForDeletion = ∅ then (s0, .noImages)
  else
    let imageIdsToDelete := s.markedForDeletion
    let markedSet := s.markedForDeletion
    let oldImages := s.images
    let oldHistory := s.history
    let s1 := { s0 with
      isDeleting := true
      targetImageIdAfterDeletion :=
        computeTargetId s.images s.currentIndex markedSet }
    match store with
    | .err =>
      -- `MediaLibrary.deleteAssetsAsync` throws → catch branch (lines 382-387)
      ({ s1 with isDeleting := false, targetImageIdAfterDeletion := none },
       .errorAlert)
    | .ok removed =>
      -- lines 338-339: removeFromPersistedKeep / removeFromPersistedDeletion,
      -- always with the full requested id list
      let s2 := { s1 with
        persistedKeep := s1.persistedKeep \ imageIdsToDelete
        persistedDeletion := s1.persistedDeletion \ imageIdsToDelete }
      -- line 342: await refreshImages(); the store now lists the survivors of
      -- the actual removal, in their original order
      let s3 := refreshImages
        (oldImages.filter (fun img => decide (img.id ∉ removed))) s2
      if "clearDeletion" ∈ providerValueMembers then
        -- success path (lines 345-381); unreachable, see c4 below
        let s4 := { s3 with markedForDeletion := ∅ }
        let updatedHistory := oldHistory.filter (fun e =>
          match oldImages.get? e.index with
          | some img => decide (img.id ∉ markedSet)
          | none => false)
        let s5 := { s4 with history := updatedHistory }
        let remainingCount :=
          (oldImages.filter (fun img => decide (img.id ∉ markedSet))).length
        if remainingCount = 0 then
          ({ s5 with
              isDeleting := false
              targetImageIdAfterDeletion := none
              currentIndex := 0 }, .allDeleted)
        else (s5, .success)
      else
        -- `clearDeletion` is undefined: the call raises → catch branch
        ({ s3 with isDeleting := false, targetImageIdAfterDeletion := none },
         .errorAlert)

/-- The restore-position effect (`index.tsx` lines 96-144), run after the
handler that changed the state has finished (`imagesLoading` is false again by
then). First branch: deletion in progress, images present, and the list
changed since `imagesHash` was recorded — re-resolve the target id (falling
back to index 0), filter the history down to in-bounds indices, and reset the
deletion flags. Second branch: deletion in progress and the list is empty —
reset to index 0. -/
def restoreAfterDeletionEffect (s : SessionState) : SessionState :=
  if s.isDeleting = true ∧ s.images ≠ [] ∧ s.imagesHash ≠ s.images then
    let newIndex :=
      match s.targetImageIdAfterDeletion with
      | some targetId =>
        match s.images.findIdx? (fun img => decide (img.id = targetId)) with
        | some i => i
        | none => 0
      | none => 0
    { s with
      currentIndex := newIndex
      history := s.history.filter (fun e => decide (e.index < s.images.length))
      isDeleting := false
      targetImageIdAfterDeletion := none }
  else if s.isDeleting = true ∧ s.images = [] then
    { s with
      currentIndex := 0
      isDeleting := false
      targetImageIdAfterDeletion := none }
  else s

/-- A commit as observed once everything has settled: the completed
`handleCommitDeletion` call followed by the restore-position effect reading
the state the handler left behind. -/
def commitAndSettle (store : StoreOutcome) (s : SessionState) :
    SessionState × CommitOutcome :=
  let r := handleCommitDeletion store s
  (restoreAfterDeletionEffect r.1, r.2)

/-- A tag direction: a left swipe tags delete, a right swipe tags keep. -/
inductive SwipeDir
  | left
  | right
deriving DecidableEq, Repr

/-- Dispatch a tag call to the matching handler. -/
def handleSwipe : SwipeDir → SessionState → SessionState
  | .left, s => handleSwipeLeft s
  | .right, s => handleSwipeRight s

/-- The `wasLeftSwipe` flag recorded for a direction. -/
def dirBool : SwipeDir → Bool
  | .left => true
  | .right => false

/-- A sequence of tag calls. -/
def tagRun (s : SessionState) (ds : List SwipeDir) : SessionState :=
  ds.foldl (fun t d => handleSwipe d t) s

/-- `n` consecutive completed undo calls. -/
def undoRun (s : SessionState) : Nat → SessionState
  | 0 => s
  | n + 1 => undoRun (handleUndo s).1 n

/-- The id of the item at a given index of the Sequence, if any. -/
def idAt (images : List ImageAsset) (i : Nat) : Option String :=
  (images.get? i).map (fun img => img.id)

/-- The direction of the most recent history entry whose referenced item has
id `x` (`none` if no entry references `x`). -/
def lastDirFor (images : List ImageAsset) (hist : List HistoryEntry)
    (x : String) : Option Bool :=
  (hist.reverse.find? (fun e => decide (idAt images e.index = some x))).map
    (fun e => e.wasLeftSwipe)

/-- Invariant tying the Ledger to the History during a tag/undo round trip
that started from state `s0` with empty History: the Sequence is unchanged,
every History index is in bounds, every delete mark (resp. keep mark) is
justified by the most recent History entry for that id, and the first History
entry (when one exists) records the starting cursor — which the cursor equals
whenever the History is empty. -/
structure RoundTripInv (s0 s : SessionState) : Prop where
  images_eq : s.images = s0.images
  idx_lt : ∀ e ∈ s.history, e.index < s.images.length
  del_dir : ∀ x ∈ s.markedForDeletion,
    lastDirFor s.images s.history x = some true
  keep_dir : ∀ x ∈ s.markedForKeep,
    lastDirFor s.images s.history x = some false
  cursor_of_nil : s.history = [] → s.currentIndex = s0.currentIndex
  cursor_of_head : ∀ e, s.history.head? = some e →
    e.index = s0.currentIndex

lemma lastDirFor_nil (images : List ImageAsset) (x : String) :
    lastDirFor images [] x = none := rfl

lemma lastDirFor_concat_self (images : List ImageAsset)
    (hist : List HistoryEntry) (e : HistoryEntry) (x : String)
    (hx : idAt images e.index = some x) :
    lastDirFor images (hist ++ [e]) x = some e.wasLeftSwipe := by
  unfold lastDirFor
  rw [List.reverse_append]
  simp [List.find?_cons_of_pos, hx]

lemma lastDirFor_concat_other (images : List ImageAsset)
    (hist : List HistoryEntry) (e : HistoryEntry) (x : String)
    (hx : idAt images e.index ≠ some x) :
    lastDirFor images (hist ++ [e]) x = lastDirFor images hist x := by
  unfold lastDirFor
  rw [List.reverse_append]
  simp [List.find?_cons_of_neg, hx]

lemma handleSwipeLeft_of_lt (s : SessionState)
    (h : s.currentIndex < s.images.length) :
    handleSwipeLeft s =
      { s with
        history := s.history ++ [⟨s.currentIndex, true⟩]
        markedForDeletion :=
          insert (s.images.get ⟨s.currentIndex, h⟩).id s.markedForDeletion
        persistedDeletion :=
          insert (s.images.get ⟨s.currentIndex, h⟩).id s.markedForDeletion
        markedForKeep :=
          s.markedForKeep.erase (s.images.get ⟨s.currentIndex, h⟩).id
        persistedKeep :=
          s.markedForKeep.erase (s.images.get ⟨s.currentIndex, h⟩).id
        currentIndex :=
          if s.currentIndex + 1 ≥ s.images.length then s.currentIndex
          else s.currentIndex + 1 } := by
  rw [handleSwipeLeft, dif_pos h]
  rfl

lemma handleSwipeRight_of_lt (s : SessionState)
    (h : s.currentIndex < s.images.length) :
    handleSwipeRight s =
      { s with
        history := s.history ++ [⟨s.currentIndex, false⟩]
        markedForKeep :=
          insert (s.images.get ⟨s.currentIndex, h⟩).id s.markedForKeep
        persistedKeep :=
          insert (s.images.get ⟨s.currentIndex, h⟩).id s.markedForKeep
        markedForDeletion :=
          s.markedForDeletion.erase (s.images.get ⟨s.currentIndex, h⟩).id
        currentIndex :=
          if s.currentIndex + 1 ≥ s.images.length then s.currentIndex
          else s.currentIndex + 1 } := by
  rw [handleSwipeRight, dif_pos h]
  rfl

lemma handleSwipeLeft_of_ge (s : SessionState)
    (h : ¬ s.currentIndex < s.images.length) : handleSwipeLeft s = s := by
  rw [handleSwipeLeft, dif_neg h]

lemma handleSwipeRight_of_ge (s : SessionState)
    (h : ¬ s.currentIndex < s.images.length) : handleSwipeRight s = s := by
  rw [handleSwipeRight, dif_neg h]

lemma handleUndo_of_nil (s : SessionState) (h : s.history = []) :
    handleUndo s = (s, .nothingToUndo) := by
  simp [handleUndo, h]

lemma handleSwipeLeft_images (s : SessionState)
    (h : s.currentIndex < s.images.length) :
    (handleSwipeLeft s).images = s.images := by
  rw [handleSwipeLeft_of_lt s h]

lemma handleSwipeLeft_history (s : SessionState)
    (h : s.currentIndex < s.images.length) :
    (handleSwipeLeft s).history = s.history ++ [⟨s.currentIndex, true⟩] := by
  rw [handleSwipeLeft_of_lt s h]

lemma handleSwipeLeft_markedForDeletion (s : SessionState)
    (h : s.currentIndex < s.images.length) :
    (handleSwipeLeft s).markedForDeletion =
      insert (s.images.get ⟨s.currentIndex, h⟩).id s.markedForDeletion := by
  rw [handleSwipeLeft_of_lt s h]

lemma handleSwipeLeft_markedForKeep (s : SessionState)
    (h : s.currentIndex < s.images.length) :
    (handleSwipeLeft s).markedForKeep =
      s.markedForKeep.erase (s.images.get ⟨s.currentIndex, h⟩).id := by
  rw [handleSwipeLeft_of_lt s h]

lemma handleSwipeLeft_currentIndex (s : SessionState)
    (h : s.currentIndex < s.images.length) :
    (handleSwipeLeft s).currentIndex =
      if s.currentIndex + 1 ≥ s.images.length then s.currentIndex
      else s.currentIndex + 1 := by
  rw [handleSwipeLeft_of_lt s h]

lemma handleSwipeRight_images (s : SessionState)
    (h : s.currentIndex < s.images.length) :
    (handleSwipeRight s).images = s.images := by
  rw [handleSwipeRight_of_lt s h]

lemma handleSwipeRight_history (s : SessionState)
    (h : s.currentIndex < s.images.length) :
    (handleSwipeRight s).history = s.history ++ [⟨s.currentIndex, false⟩] := by
  rw [handleSwipeRight_of_lt s h]

lemma handleSwipeRight_markedForKeep (s : SessionState)
    (h : s.currentIndex < s.images.length) :
    (handleSwipeRight s).markedForKeep =
      insert (s.images.get ⟨s.currentIndex, h⟩).id s.markedForKeep := by
  rw [handleSwipeRight_of_lt s h]

lemma handleSwipeRight_markedForDeletion (s : SessionState)
    (h : s.currentIndex < s.images.length) :
    (handleSwipeRight s).markedForDeletion =
      s.markedForDeletion.erase (s.images.get ⟨s.currentIndex, h⟩).id := by
  rw [handleSwipeRight_of_lt s h]

lemma handleSwipeRight_currentIndex (s : SessionState)
    (h : s.currentIndex < s.images.length) :
    (handleSwipeRight s).currentIndex =
      if s.currentIndex + 1 ≥ s.images.length then s.currentIndex
      else s.currentIndex + 1 := by
  rw [handleSwipeRight_of_lt s h]

lemma idAt_of_lt (s : SessionState) (h : s.currentIndex < s.images.length) :
    idAt s.images s.currentIndex =
      some (s.images.get ⟨s.currentIndex, h⟩).id := by
  unfold idAt
  rw [List.get?_eq_get h]
  rfl

lemma tag_step_inv_left (s0 s : SessionState)
    (inv : RoundTripInv s0 s) (hc : s.currentIndex < s.images.length) :
    RoundTripInv s0 (handleSwipeLeft s) ∧
    (handleSwipeLeft s).currentIndex < (handleSwipeLeft s).images.length ∧
    (handleSwipeLeft s).history.length = s.history.length + 1 := by
  have himg := handleSwipeLeft_images s hc
  have hhist := handleSwipeLeft_history s hc
  have hdel := handleSwipeLeft_markedForDeletion s hc
  have hkeep := handleSwipeLeft_markedForKeep s hc
  have hcur := handleSwipeLeft_currentIndex s hc
  have hid := idAt_of_lt s hc
  refine ⟨⟨?_, ?_, ?_, ?_, ?_, ?_⟩, ?_, ?_⟩
  · rw [himg]; exact inv.images_eq
  · rw [hhist, himg]
    intro e he
    rcases List.mem_append.mp he with h1 | h2
    · exact inv.idx_lt e h1
    · have he2 : e = (⟨s.currentIndex, true⟩ : HistoryEntry) := by
        simpa using h2
      rw [he2]; exact hc
  · rw [hdel, hhist, himg]
    intro y hy
    by_cases hyx : y = (s.images.get ⟨s.currentIndex, hc⟩).id
    · subst hyx
      exact lastDirFor_concat_self s.images s.history ⟨s.currentIndex, true⟩
        _ hid
    · have hy' : y ∈ s.markedForDeletion := by
        rcases Finset.mem_insert.mp hy with h1 | h1
        · exact absurd h1 hyx
        · exact h1
      have hne : idAt s.images s.currentIndex ≠ some y := by
        rw [hid]
        intro hcon
        injection hcon with h2
        exact hyx h2.symm
      rw [lastDirFor_concat_other s.images s.history ⟨s.currentIndex, true⟩
        y hne]
      exact inv.del_dir y hy'
  · rw [hkeep, hhist, himg]
    intro y hy
    obtain ⟨hyx, hy'⟩ := Finset.mem_erase.mp hy
    have hne : idAt s.images s.currentIndex ≠ some y := by
      rw [hid]
      intro hcon
      injection hcon with h2
      exact hyx h2.symm
    rw [lastDirFor_concat_other s.images s.history ⟨s.currentIndex, true⟩
      y hne]
    exact inv.keep_dir y hy'
  · rw [hhist]
    intro habs
    simp at habs
  · rw [hhist]
    intro e he
    cases hsh : s.history with
    | nil =>
      rw [hsh] at he
      simp at he
      rw [← he]
      exact inv.cursor_of_nil hsh
    | cons a l =>
      rw [hsh] at he
      simp at he
      rw [← he]
      exact inv.cursor_of_head a (by rw [hsh]; rfl)
  · rw [hcur, himg]
    by_cases hge : s.currentIndex + 1 ≥ s.images.length
    · rw [if_pos hge]; exact hc
    · rw [if_neg hge]; omega
  · rw [hhist]; simp

lemma tag_step_inv_right (s0 s : SessionState)
    (inv : RoundTripInv s0 s) (hc : s.currentIndex < s.images.length) :
    RoundTripInv s0 (handleSwipeRight s) ∧
    (handleSwipeRight s).currentIndex < (handleSwipeRight s).images.length ∧
    (handleSwipeRight s).history.length = s.history.length + 1 := by
  have himg := handleSwipeRight_images s hc
  have hhist := handleSwipeRight_history s hc
  have hdel := handleSwipeRight_markedForDeletion s hc
  have hkeep := handleSwipeRight_markedForKeep s hc
  have hcur := handleSwipeRight_currentIndex s hc
  have hid := idAt_of_lt s hc
  refine ⟨⟨?_, ?_, ?_, ?_, ?_, ?_⟩, ?_, ?_⟩
  · rw [himg]; exact inv.images_eq
  · rw [hhist, himg]
    intro e he
    rcases List.mem_append.mp he with h1 | h2
    · exact inv.idx_lt e h1
    · have he2 : e = (⟨s.currentIndex, false⟩ : HistoryEntry) := by
        simpa using h2
      rw [he2]; exact hc
  · rw [hdel, hhist, himg]
    intro y hy
    obtain ⟨hyx, hy'⟩ := Finset.mem_erase.mp hy
    have hne : idAt s.images s.currentIndex ≠ some y := by
      rw [hid]
      intro hcon
      injection hcon with h2
      exact hyx h2.symm
    rw [lastDirFor_concat_other s.images s.history ⟨s.currentIndex, false⟩
      y hne]
    exact inv.del_dir y hy'
  · rw [hkeep, hhist, himg]
    intro y hy
    by_cases hyx : y = (s.images.get ⟨s.currentIndex, hc⟩).id
    · subst hyx
      exact lastDirFor_concat_self s.images s.history ⟨s.currentIndex, false⟩
        _ hid
    · have hy' : y ∈ s.markedForKeep := by
        rcases Finset.mem_insert.mp hy with h1 | h1
        · exact absurd h1 hyx
        · exact h1
      have hne : idAt s.images s.currentIndex ≠ some y := by
        rw [hid]
        intro hcon
        injection hcon with h2
        exact hyx h2.symm
      rw [lastDirFor_concat_other s.images s.history ⟨s.currentIndex, false⟩
        y hne]
      exact inv.keep_dir y hy'
  · rw [hhist]
    intro habs
    simp at habs
  · rw [hhist]
    intro e he
    cases hsh : s.history with
    | nil =>
      rw [hsh] at he
      simp at he
      rw [← he]
      exact inv.cursor_of_nil hsh
    | cons a l =>
      rw [hsh] at he
      simp at he
      rw [← he]
      exact inv.cursor_of_head a (by rw [hsh]; rfl)
  · rw [hcur, himg]
    by_cases hge : s.currentIndex + 1 ≥ s.images.length
    · rw [if_pos hge]; exact hc
    · rw [if_neg hge]; omega
  · rw [hhist]; simp

lemma tag_step_inv (s0 s : SessionState) (d : SwipeDir)
    (inv : RoundTripInv s0 s) (hc : s.currentIndex < s.images.length) :
    RoundTripInv s0 (handleSwipe d s) ∧
    (handleSwipe d s).currentIndex < (handleSwipe d s).images.length ∧
    (handleSwipe d s).history.length = s.history.length + 1 := by
  cases d
  · exact tag_step_inv_left s0 s inv hc
  · exact tag_step_inv_right s0 s inv hc

lemma tagRun_inv (s0 : SessionState) (ds : List SwipeDir) :
    ∀ s, RoundTripInv s0 s → s.currentIndex < s.images.length →
    RoundTripInv s0 (tagRun s ds) ∧
    (tagRun s ds).history.length = s.history.length + ds.length := by
  induction ds with
  | nil =>
    intro s inv _
    exact ⟨inv, by simp [tagRun]⟩
  | cons d ds ih =>
    intro s inv hc
    obtain ⟨inv1, hc1, hlen1⟩ := tag_step_inv s0 s d inv hc
    obtain ⟨inv2, hlen2⟩ := ih (handleSwipe d s) inv1 hc1
    have hfold : tagRun s (d :: ds) = tagRun (handleSwipe d s) ds := rfl
    rw [hfold]
    refine ⟨inv2, ?_⟩
    rw [hlen2, hlen1]
    simp only [List.length_cons]
    omega

lemma undo_step_inv (s0 s : SessionState) (inv : RoundTripInv s0 s) :
    RoundTripInv s0 (handleUndo s).1 ∧
    (handleUndo s).1.history = s.history.dropLast := by
  rcases List.eq_nil_or_concat s.history with hnil | ⟨l, e, hle⟩
  · rw [handleUndo_of_nil s hnil]
    exact ⟨inv, by rw [hnil]; rfl⟩
  · rw [List.concat_eq_append] at hle
    have hlast : s.history.getLast? = some e := by
      rw [hle]; exact List.getLast?_concat l
    have hemem : e ∈ s.history := by rw [hle]; simp
    have hei : e.index < s.images.length := inv.idx_lt e hemem
    have hid : idAt s.images e.index =
        some (s.images.get ⟨e.index, hei⟩).id := by
      unfold idAt
      rw [List.get?_eq_get hei]
      rfl
    have hdropl : s.history.dropLast = l := by
      rw [hle]; exact List.dropLast_concat
    have hred : (handleUndo s).1 =
        { (if e.wasLeftSwipe then
             unmarkForDeletion (s.images.get ⟨e.index, hei⟩).id s
           else
             unmarkForKeep (s.images.get ⟨e.index, hei⟩).id s) with
          history := s.history.dropLast
          currentIndex := e.index } := by
      unfold handleUndo
      rw [hlast]
      simp only [dif_pos hei]
    set x := (s.images.get ⟨e.index, hei⟩).id with hxdef
    have hhead : ∀ e2, l.head? = some e2 → e2.index = s0.currentIndex := by
      intro e2 he2
      apply inv.cursor_of_head e2
      rw [hle]
      cases l with
      | nil => simp at he2
      | cons a t => simpa using he2
    have hcur_nil : l = [] → e.index = s0.currentIndex := by
      intro hl0
      apply inv.cursor_of_head e
      rw [hle, hl0]
      rfl
    cases hw : e.wasLeftSwipe with
    | true =>
      rw [hw] at hred
      simp only [if_pos] at hred
      constructor
      · constructor
        · rw [hred]; exact inv.images_eq
        · rw [hred, hdropl]
          intro e2 he2
          exact inv.idx_lt e2 (by rw [hle]; exact List.mem_append_left _ he2)
        · rw [hred, hdropl]
          intro y hy
          show lastDirFor s.images l y = some true
          obtain ⟨hyx, hy'⟩ :=
            Finset.mem_erase.mp (by simpa [unmarkForDeletion] using hy)
          have hgoal := inv.del_dir y hy'
          rw [hle] at hgoal
          rwa [lastDirFor_concat_other s.images l e y
            (by rw [hid]; intro hcon; injection hcon with h2;
                exact hyx h2.symm)] at hgoal
        · rw [hred, hdropl]
          intro y hy
          show lastDirFor s.images l y = some false
          have hy' : y ∈ s.markedForKeep := by
            simpa [unmarkForDeletion] using hy
          have hgoal := inv.keep_dir y hy'
          rw [hle] at hgoal
          by_cases hyx : y = x
          · exfalso
            rw [hyx, lastDirFor_concat_self s.images l e x hid, hw] at hgoal
            simp at hgoal
          · rwa [lastDirFor_concat_other s.images l e y
              (by rw [hid]; intro hcon; injection hcon with h2;
                  exact hyx h2.symm)] at hgoal
        · rw [hred, hdropl]
          intro hl0
          exact hcur_nil hl0
        · rw [hred, hdropl]
          exact hhead
      · rw [hred]
    | false =>
      rw [hw] at hred
      simp only [if_neg, Bool.false_eq_true, if_false] at hred
      constructor
      · constructor
        · rw [hred]; exact inv.images_eq
        · rw [hred, hdropl]
          intro e2 he2
          exact inv.idx_lt e2 (by rw [hle]; exact List.mem_append_left _ he2)
        · rw [hred, hdropl]
          intro y hy
          show lastDirFor s.images l y = some true
          have hy' : y ∈ s.markedForDeletion := by
            simpa [unmarkForKeep] using hy
          have hgoal := inv.del_dir y hy'
          rw [hle] at hgoal
          by_cases hyx : y = x
          · exfalso
            rw [hyx, lastDirFor_concat_self s.images l e x hid, hw] at hgoal
            simp at hgoal
          · rwa [lastDirFor_concat_other s.images l e y
              (by rw [hid]; intro hcon; injection hcon with h2;
                  exact hyx h2.symm)] at hgoal
        · rw [hred, hdropl]
          intro y hy
          show lastDirFor s.images l y = some false
          obtain ⟨hyx, hy'⟩ :=
            Finset.mem_erase.mp (by simpa [unmarkForKeep] using hy)
          have hgoal := inv.keep_dir y hy'
          rw [hle] at hgoal
          rwa [lastDirFor_concat_other s.images l e y
            (by rw [hid]; intro hcon; injection hcon with h2;
                exact hyx h2.symm)] at hgoal
        · rw [hred, hdropl]
          intro hl0
          exact hcur_nil hl0
        · rw [hred, hdropl]
          exact hhead
      · rw [hred]

lemma undoRun_empties (s0 : SessionState) :
    ∀ (n : Nat) (s : SessionState), RoundTripInv s0 s →
    s.history.length = n →
    (undoRun s n).history = [] ∧ RoundTripInv s0 (undoRun s n) := by
  intro n
  induction n with
  | zero =>
    intro s inv hlen
    exact ⟨List.length_eq_zero.mp hlen, inv⟩
  | succ n ih =>
    intro s inv hlen
    obtain ⟨inv1, hhist1⟩ := undo_step_inv s0 s inv
    have hlen1 : (handleUndo s).1.history.length = n := by
      rw [hhist1, List.length_dropLast, hlen]
      omega
    have hstep : undoRun s (n + 1) = undoRun (handleUndo s).1 n := rfl
    rw [hstep]
    exact ih (handleUndo s).1 inv1 hlen1

lemma tagRun_noop (ds : List SwipeDir) :
    ∀ s : SessionState, ¬ s.currentIndex < s.images.length →
    tagRun s ds = s := by
  induction ds with
  | nil => intro s _; rfl
  | cons d ds ih =>
    intro s h
    have hstep : handleSwipe d s = s := by
      cases d
      · exact handleSwipeLeft_of_ge s h
      · exact handleSwipeRight_of_ge s h
    have hfold : tagRun s (d :: ds) = tagRun (handleSwipe d s) ds := rfl
    rw [hfold, hstep]
    exact ih s h

lemma undoRun_of_nil_history (n : Nat) :
    ∀ s : SessionState, s.history = [] → undoRun s n = s := by
  induction n with
  | zero => intro s _; rfl
  | succ n ih =>
    intro s h
    have hstep : undoRun s (n + 1) = undoRun (handleUndo s).1 n := rfl
    rw [hstep, handleUndo_of_nil s h]
    exact ih s h

lemma roundTripInv_init (s0 : SessionState)
    (hdel : s0.markedForDeletion = ∅) (hkeep : s0.markedForKeep = ∅)
    (hh : s0.history = []) : RoundTripInv s0 s0 := by
  constructor
  · rfl
  · rw [hh]; intro e he; simp at he
  · rw [hdel]; intro x hx; simp at hx
  · rw [hkeep]; intro x hx; simp at hx
  · intro _; rfl
  · rw [hh]; intro e he; simp at he

/-- Lemma: the restore-position effect does nothing once `isDeleting` is
false (its two guards both require it). -/
lemma restoreAfterDeletionEffect_of_not_deleting (s : SessionState)
    (h : s.isDeleting = false) : restoreAfterDeletionEffect s = s := by
  unfold restoreAfterDeletionEffect
  rw [if_neg (by simp [h]), if_neg (by simp [h])]

/-- One Ledger operation of the context (`image-swipe-context.tsx`). -/
inductive LedgerOp
  | markDel (imageId : String)
  | markKeep (imageId : String)
  | unmarkDel (imageId : String)
  | unmarkKeep (imageId : String)
  | clear
deriving DecidableEq, Repr

/-- Apply one Ledger operation. -/
def applyLedgerOp : LedgerOp → SessionState → SessionState
  | .markDel imageId, s => markForDeletion imageId s
  | .markKeep imageId, s => markForKeep imageId s
  | .unmarkDel imageId, s => unmarkForDeletion imageId s
  | .unmarkKeep imageId, s => unmarkForKeep imageId s
  | .clear, s => clearAll s

/-- Apply a sequence of Ledger operations, oldest first. -/
def applyLedgerOps (ops : List LedgerOp) (s : SessionState) : SessionState :=
  ops.foldl (fun t op => applyLedgerOp op t) s

/-- The in-memory mark sets of the Ledger are disjoint. -/
def MutexInv (s : SessionState) : Prop :=
  ∀ x ∈ s.markedForDeletion, x ∉ s.markedForKeep

lemma ledgerOp_mutex (op : LedgerOp) (s : SessionState) (h : MutexInv s) :
    MutexInv (applyLedgerOp op s) := by
  cases op with
  | markDel imageId =>
    intro x hx
    simp only [applyLedgerOp, markForDeletion] at hx ⊢
    rcases Finset.mem_insert.mp hx with h1 | h1
    · subst h1; exact Finset.not_mem_erase x _
    · intro hk
      exact h x h1 (Finset.mem_of_mem_erase hk)
  | markKeep imageId =>
    intro x hx
    simp only [applyLedgerOp, markForKeep] at hx ⊢
    obtain ⟨hne, hx'⟩ := Finset.mem_erase.mp hx
    intro hk
    rcases Finset.mem_insert.mp hk with h1 | h1
    · exact hne h1
    · exact h x hx' h1
  | unmarkDel imageId =>
    intro x hx
    simp only [applyLedgerOp, unmarkForDeletion] at hx ⊢
    exact h x (Finset.mem_of_mem_erase hx)
  | unmarkKeep imageId =>
    intro x hx
    simp only [applyLedgerOp, unmarkForKeep] at hx ⊢
    intro hk
    exact h x hx (Finset.mem_of_mem_erase hk)
  | clear =>
    intro x hx
    simp only [applyLedgerOp, clearAll] at hx
    exact absurd hx (Finset.not_mem_empty x)

lemma ledgerOps_mutex (ops : List LedgerOp) :
    ∀ s : SessionState, MutexInv s → MutexInv (applyLedgerOps ops s) := by
  induction ops with
  | nil => intro s h; exact h
  | cons op ops ih =>
    intro s h
    exact ih (applyLedgerOp op s) (ledgerOp_mutex op s h)

/-- Items used for the concrete evaluations below. -/
def imgA : ImageAsset := ⟨"a", "uri-a", 3⟩

/-- Second concrete item. -/
def imgB : ImageAsset := ⟨"b", "uri-b", 2⟩

/-- Third concrete item. -/
def imgC : ImageAsset := ⟨"c", "uri-c", 1⟩

/-- A session on `[a, b]` where `a` was swiped left (delete) and `b` right
(keep): cursor on `b` (index 1, the handler does not advance past the last
item), both tags in the History, marks mirrored in persistent storage. -/
def exCommitState : SessionState :=
  { images := [imgA, imgB]
    currentIndex := 1
    history := [⟨0, true⟩, ⟨1, false⟩]
    markedForDeletion := {"a"}
    markedForKeep := {"b"}
    persistedDeletion := {"a"}
    persistedKeep := {"b"}
    permissionGranted := true
    isDeleting := false
    targetImageIdAfterDeletion := none
    imagesHash := [] }

/-- A fresh session holding the single item `a`. -/
def exLastItemState : SessionState :=
  { images := [imgA]
    currentIndex := 0
    history := []
    markedForDeletion := ∅
    markedForKeep := ∅
    persistedDeletion := ∅
    persistedKeep := ∅
    permissionGranted := true
    isDeleting := false
    targetImageIdAfterDeletion := none
    imagesHash := [] }

/-- A session on `[a, b, c]` with `a` and `b` both marked for deletion. -/
def exPartialState : SessionState :=
  { images := [imgA, imgB, imgC]
    currentIndex := 0
    history := []
    markedForDeletion := {"a", "b"}
    markedForKeep := ∅
    persistedDeletion := {"a", "b"}
    persistedKeep := ∅
    permissionGranted := true
    isDeleting := false
    targetImageIdAfterDeletion := none
    imagesHash := [] }

/-- C5: starting from an empty Ledger and empty History, any sequence of `n`
tag calls followed by `n` undo calls leaves the Ledger empty again and
returns the Cursor to its pre-tag value. -/
theorem c5_tag_undo_round_trip (s0 : SessionState) (ds : List SwipeDir)
    (hdel : s0.markedForDeletion = ∅) (hkeep : s0.markedForKeep = ∅)
    (hh : s0.history = []) :
    (undoRun (tagRun s0 ds) ds.length).markedForDeletion = ∅ ∧
    (undoRun (tagRun s0 ds) ds.length).markedForKeep = ∅ ∧
    (undoRun (tagRun s0 ds) ds.length).currentIndex = s0.currentIndex := by
  by_cases hc : s0.currentIndex < s0.images.length
  · have inv0 := roundTripInv_init s0 hdel hkeep hh
    obtain ⟨invT, hlenT⟩ := tagRun_inv s0 ds s0 inv0 hc
    have hlen : (tagRun s0 ds).history.length = ds.length := by
      rw [hlenT, hh]
      simp
    obtain ⟨hnil, invF⟩ :=
      undoRun_empties s0 ds.length (tagRun s0 ds) invT hlen
    refine ⟨?_, ?_, invF.cursor_of_nil hnil⟩
    · apply Finset.eq_empty_iff_forall_not_mem.mpr
      intro x hx
      have hdir := invF.del_dir x hx
      rw [hnil, lastDirFor_nil] at hdir
      exact Option.noConfusion hdir
    · apply Finset.eq_empty_iff_forall_not_mem.mpr
      intro x hx
      have hdir := invF.keep_dir x hx
      rw [hnil, lastDirFor_nil] at hdir
      exact Option.noConfusion hdir
  · rw [tagRun_noop ds s0 hc, undoRun_of_nil_history ds.length s0 hh]
    exact ⟨hdel, hkeep, rfl⟩

/-- Witness for C5 at a concrete input: one left tag followed by one undo on
a fresh single-item session. -/
theorem c5_tag_undo_round_trip_witness :
    exLastItemState.markedForDeletion = ∅ ∧
    exLastItemState.history = [] ∧
    (undoRun (tagRun exLastItemState [SwipeDir.left]) 1).currentIndex =
      exLastItemState.currentIndex :=
  ⟨rfl, rfl,
    (c5_tag_undo_round_trip exLastItemState [SwipeDir.left]
      rfl rfl rfl).2.2⟩

/-- C6: the Ledger never holds an id in both sets: `markForDeletion` removes
the id from the keep set, `markForKeep` removes it from the delete set, and
every sequence of Ledger operations preserves disjointness. -/
theorem c6_mark_mutual_exclusion (s : SessionState) (ops : List LedgerOp)
    (hmutex : MutexInv s) :
    MutexInv (applyLedgerOps ops s) ∧
    (∀ imageId, imageId ∉ (markForDeletion imageId s).markedForKeep) ∧
    (∀ imageId, imageId ∉ (markForKeep imageId s).markedForDeletion) := by
  refine ⟨ledgerOps_mutex ops s hmutex, ?_, ?_⟩
  · intro imageId
    simp [markForDeletion]
  · intro imageId
    simp [markForKeep]

/-- Witness for C6 at a concrete input: marking `a` for deletion and then for
keep, starting from an empty Ledger. -/
theorem c6_mark_mutual_exclusion_witness :
    MutexInv exLastItemState ∧
    MutexInv (applyLedgerOps
      [LedgerOp.markDel "a", LedgerOp.markKeep "a"] exLastItemState) :=
  ⟨by intro x hx; simp [exLastItemState] at hx,
   (c6_mark_mutual_exclusion exLastItemState
      [LedgerOp.markDel "a", LedgerOp.markKeep "a"]
      (by intro x hx; simp [exLastItemState] at hx)).1⟩

/-- C9: undo with an empty History changes no state and reports
"nothing to undo". -/
theorem c9_undo_empty_history_noop (s : SessionState)
    (h : s.history = []) :
    handleUndo s = (s, UndoOutcome.nothingToUndo) :=
  handleUndo_of_nil s h

/-- Witness for C9 at a concrete input. -/
theorem c9_undo_empty_history_noop_witness :
    exLastItemState.history = [] ∧
    handleUndo exLastItemState = (exLastItemState, UndoOutcome.nothingToUndo) :=
  ⟨rfl, c9_undo_empty_history_noop exLastItemState rfl⟩

/-- C10: `markForDeletion id` then `markForKeep id` removes `id` from the
in-memory delete set but leaves it in the persisted deletion set (only the
keep side is written back), so a reload of persisted marks restores `id` as
simultaneously delete-marked and keep-marked. -/
theorem c10_markKeep_misses_persisted_deletion (s : SessionState)
    (imageId : String) (libraryListing : List ImageAsset) :
    imageId ∉ (markForKeep imageId (markForDeletion imageId s)).markedForDeletion ∧
    imageId ∈ (markForKeep imageId (markForDeletion imageId s)).persistedDeletion ∧
    imageId ∈ (markForKeep imageId (markForDeletion imageId s)).markedForKeep ∧
    imageId ∈ (markForKeep imageId (markForDeletion imageId s)).persistedKeep ∧
    imageId ∈ (loadImages libraryListing
      (markForKeep imageId (markForDeletion imageId s))).markedForDeletion ∧
    imageId ∈ (loadImages libraryListing
      (markForKeep imageId (markForDeletion imageId s))).markedForKeep := by
  simp [markForKeep, markForDeletion, loadImages]

/-- C2 counterexample: on a one-item Sequence with Cursor = length-1 = 0, a
tag call does NOT advance the Cursor to length (it stays at 0), and a second
tag call is NOT a no-op (it pushes another History entry). -/
theorem c2_tag_last_item_counterexample :
    exLastItemState.currentIndex = exLastItemState.images.length - 1 ∧
    (handleSwipeLeft exLastItemState).currentIndex ≠
      exLastItemState.images.length ∧
    (handleSwipeLeft exLastItemState).currentIndex = 0 ∧
    handleSwipeLeft (handleSwipeLeft exLastItemState) ≠
      handleSwipeLeft exLastItemState ∧
    (handleSwipeLeft (handleSwipeLeft exLastItemState)).history =
      [⟨0, true⟩, ⟨0, true⟩] := by
  decide

/-- C2 amended: tagging at Cursor = length-1 marks the item and pushes a
History entry but leaves the Cursor at length-1; each further tag call pushes
another entry for the same index rather than being a no-op. -/
theorem c2_tag_last_item_amended (s : SessionState) (h1 : s.images ≠ [])
    (h2 : s.currentIndex = s.images.length - 1) :
    (handleSwipeLeft s).currentIndex = s.currentIndex ∧
    (handleSwipeLeft s).history = s.history ++ [⟨s.currentIndex, true⟩] ∧
    (handleSwipeRight s).currentIndex = s.currentIndex ∧
    (handleSwipeRight s).history = s.history ++ [⟨s.currentIndex, false⟩] ∧
    (handleSwipeLeft (handleSwipeLeft s)).history.length =
      s.history.length + 2 := by
  have hlen : 0 < s.images.length := List.length_pos.mpr h1
  have hc : s.currentIndex < s.images.length := by omega
  have hge : s.currentIndex + 1 ≥ s.images.length := by omega
  have hcur : (handleSwipeLeft s).currentIndex = s.currentIndex := by
    rw [handleSwipeLeft_currentIndex s hc, if_pos hge]
  refine ⟨hcur, handleSwipeLeft_history s hc, ?_,
    handleSwipeRight_history s hc, ?_⟩
  · rw [handleSwipeRight_currentIndex s hc, if_pos hge]
  · have himg := handleSwipeLeft_images s hc
    have hc2 : (handleSwipeLeft s).currentIndex <
        (handleSwipeLeft s).images.length := by
      rw [himg, hcur]; exact hc
    rw [handleSwipeLeft_history _ hc2, List.length_append,
      handleSwipeLeft_history s hc, List.length_append]
    simp

/-- Witness for the amended C2 at a concrete input. -/
theorem c2_tag_last_item_amended_witness :
    exLastItemState.images ≠ [] ∧
    exLastItemState.currentIndex = exLastItemState.images.length - 1 ∧
    (handleSwipeLeft exLastItemState).currentIndex =
      exLastItemState.currentIndex :=
  ⟨by decide, by decide,
    (c2_tag_last_item_amended exLastItemState (by decide) (by decide)).1⟩

/-- C3 counterexample: with `D = {a, b}` and the store actually removing only
`{a}` (a strict subset), the claim requires `b` (in `D` minus the removed
set) to remain delete-marked; instead the commit leaves the Ledger's delete
set empty. -/
theorem c3_partial_removal_counterexample :
    exPartialState.markedForDeletion = {"a", "b"} ∧
    ({"a"} : Finset String) ⊂ exPartialState.markedForDeletion ∧
    "b" ∈ exPartialState.markedForDeletion \ ({"a"} : Finset String) ∧
    (commitAndSettle (StoreOutcome.ok {"a"})
      exPartialState).1.markedForDeletion = ∅ := by
  decide

/-- C3 amended: after a commit whose store call resolves — whatever subset it
actually removed — the in-memory delete set becomes the persisted deletion
set minus ALL requested ids, so no id of the pending-delete set keeps its
mark (a retry set is never retained). -/
theorem c3_commit_clears_all_requested_marks (s : SessionState)
    (removed : Finset String) (hD : s.markedForDeletion ≠ ∅)
    (hp : s.permissionGranted = true) :
    (commitAndSettle (StoreOutcome.ok removed) s).1.markedForDeletion =
      s.persistedDeletion \ s.markedForDeletion ∧
    ∀ d ∈ s.markedForDeletion,
      d ∉ (commitAndSettle (StoreOutcome.ok removed) s).1.markedForDeletion := by
  have hmem : ¬ ("clearDeletion" ∈ providerValueMembers) := by decide
  have heq : (commitAndSettle (StoreOutcome.ok removed) s).1.markedForDeletion =
      s.persistedDeletion \ s.markedForDeletion := by
    unfold commitAndSettle handleCommitDeletion
    rw [if_neg hD]
    simp only [if_neg hmem]
    rw [restoreAfterDeletionEffect_of_not_deleting _ rfl]
    simp [refreshImages, loadImages, hp]
  refine ⟨heq, ?_⟩
  intro d hd
  rw [heq]
  simp only [Finset.mem_sdiff, not_and, not_not]
  intro _
  exact hd

/-- Witness for the amended C3 at a concrete input. -/
theorem c3_commit_clears_all_requested_marks_witness :
    exPartialState.markedForDeletion ≠ ∅ ∧
    exPartialState.permissionGranted = true ∧
    (commitAndSettle (StoreOutcome.ok {"a"})
        exPartialState).1.markedForDeletion =
      exPartialState.persistedDeletion \ exPartialState.markedForDeletion :=
  ⟨by decide, rfl,
    (c3_commit_clears_all_requested_marks exPartialState {"a"}
      (by decide) rfl).1⟩

/-- C4: the provider's value has no `clearDeletion` member (only `clearAll`),
so every commit with a non-empty pending-delete set whose store call resolves
raises at the `clearDeletion()` call and finishes through the catch branch:
the outcome is the error alert (never the success alerts), the History is
left exactly as it was (the pruning at lines 347-367 of `index.tsx` is dead
code), and the Ledger's delete set ends as whatever the persisted-set reload
produced, never as the empty set `clearDeletion` was meant to install. -/
theorem c4_commit_clearDeletion_undefined (s : SessionState)
    (removed : Finset String) (hD : s.markedForDeletion ≠ ∅) :
    "clearDeletion" ∉ providerValueMembers ∧
    "clearAll" ∈ providerValueMembers ∧
    (commitAndSettle (StoreOutcome.ok removed) s).2 =
      CommitOutcome.errorAlert ∧
    (commitAndSettle (StoreOutcome.ok removed) s).1.history = s.history := by
  have hmem : ¬ ("clearDeletion" ∈ providerValueMembers) := by decide
  refine ⟨hmem, by decide, ?_, ?_⟩
  · unfold commitAndSettle handleCommitDeletion
    rw [if_neg hD]
    simp only [if_neg hmem]
  · unfold commitAndSettle handleCommitDeletion
    rw [if_neg hD]
    simp only [if_neg hmem]
    rw [restoreAfterDeletionEffect_of_not_deleting _ rfl]
    unfold refreshImages
    cases hperm : s.permissionGranted
    · simp [hperm, loadImages]
    · simp [hperm, loadImages]

/-- Witness for C4 at a concrete input. -/
theorem c4_commit_clearDeletion_undefined_witness :
    exPartialState.markedForDeletion ≠ ∅ ∧
    (commitAndSettle (StoreOutcome.ok {"a", "b"}) exPartialState).2 =
      CommitOutcome.errorAlert :=
  ⟨by decide,
    (c4_commit_clearDeletion_undefined exPartialState {"a", "b"}
      (by decide)).2.2.1⟩

/-- C7: when the store's batch delete throws, the commit is atomic in
failure — no Ledger mark (in memory or persisted) is cleared, the Cursor,
History and Sequence are unchanged, the error alert is surfaced, and the
`isDeleting` guard is cleared. -/
theorem c7_store_throw_atomic (s : SessionState)
    (hD : s.markedForDeletion ≠ ∅) :
    (commitAndSettle StoreOutcome.err s).2 = CommitOutcome.errorAlert ∧
    (commitAndSettle StoreOutcome.err s).1.markedForDeletion =
      s.markedForDeletion ∧
    (commitAndSettle StoreOutcome.err s).1.markedForKeep = s.markedForKeep ∧
    (commitAndSettle StoreOutcome.err s).1.persistedDeletion =
      s.persistedDeletion ∧
    (commitAndSettle StoreOutcome.err s).1.persistedKeep = s.persistedKeep ∧
    (commitAndSettle StoreOutcome.err s).1.currentIndex = s.currentIndex ∧
    (commitAndSettle StoreOutcome.err s).1.history = s.history ∧
    (commitAndSettle StoreOutcome.err s).1.images = s.images ∧
    (commitAndSettle StoreOutcome.err s).1.isDeleting = false := by
  unfold commitAndSettle handleCommitDeletion
  rw [if_neg hD]
  dsimp only
  rw [restoreAfterDeletionEffect_of_not_deleting _ rfl]
  exact ⟨rfl, rfl, rfl, rfl, rfl, rfl, rfl, rfl, rfl⟩

/-- Witness for C7 at a concrete input. -/
theorem c7_store_throw_atomic_witness :
    exCommitState.markedForDeletion ≠ ∅ ∧
    (commitAndSettle StoreOutcome.err exCommitState).1.currentIndex =
      exCommitState.currentIndex :=
  ⟨by decide, (c7_store_throw_atomic exCommitState (by decide)).2.2.2.2.2.1⟩

/-- C1 (code_bug evaluation): on `[a, b]` with the Cursor on `b` (index 1)
and pending-delete set `{a}`, a commit whose store removes exactly `{a}`
must, per the claim, leave the Cursor on the surviving current item `b`,
which sits at index 0 of the new one-item Sequence. The code instead ends in
the catch branch (the `clearDeletion` call raises), which clears `isDeleting`
and nulls the target ref before the restore-position effect can use them, so
the Cursor stays at 1 — pointing past the end of the new Sequence. The
Ledger and Sequence parts of the claim do hold here (no id of `{a}` remains
delete-marked or listed). -/
theorem c1_commit_cursor_not_restored :
    exCommitState.markedForDeletion = {"a"} ∧
    (exCommitState.images.get? exCommitState.currentIndex).map
      (fun img => img.id) = some "b" ∧
    "b" ∉ ({"a"} : Finset String) ∧
    (commitAndSettle (StoreOutcome.ok {"a"}) exCommitState).1.images.map
      (fun img => img.id) = ["b"] ∧
    (commitAndSettle (StoreOutcome.ok {"a"})
      exCommitState).1.markedForDeletion = ∅ ∧
    ((commitAndSettle (StoreOutcome.ok {"a"}) exCommitState).1.images.findIdx?
      (fun img => decide (img.id = "b"))) = some 0 ∧
    (commitAndSettle (StoreOutcome.ok {"a"}) exCommitState).1.currentIndex =
      1 ∧
    (commitAndSettle (StoreOutcome.ok {"a"}) exCommitState).2 =
      CommitOutcome.errorAlert := by
  decide

/-- C8 (code_bug evaluation): after the same commit, the History still holds
its two pre-commit entries, and the entry with index 1 is out of bounds for
the new one-item Sequence — no pruning policy was applied. -/
theorem c8_history_out_of_bounds_after_commit :
    (commitAndSettle (StoreOutcome.ok {"a"}) exCommitState).1.history =
      [⟨0, true⟩, ⟨1, false⟩] ∧
    (commitAndSettle (StoreOutcome.ok {"a"}) exCommitState).1.images.length =
      1 ∧
    ¬ (∀ e ∈ (commitAndSettle (StoreOutcome.ok {"a"}) exCommitState).1.history,
        e.index <
          (commitAndSettle (StoreOutcome.ok {"a"})
            exCommitState).1.images.length) := by
  decide
